import Mathlib

/-! Verification of the password hashing and verification utilities of
`packages/hypermodel/src/utils.ts` (`parsePassword`, `hashPassword`,
`verifyPassword`), shallowly embedded in Lean.

Modelling choices:
* Byte buffers are `List Nat`, with every entry `< 256` where it matters.
* Node's `Buffer.from(s, 'hex')` and `Buffer.from(s, 'base64')` are lenient
  decoders that never throw; they are embedded as total functions
  (`hexDecode`, `base64Decode`) mirroring Node's truncating / forgiving
  behaviour.
* The PBKDF2 primitive is an external trusted leaf; it is a parameter
  `kdf : Kdf` (password, salt argument, iterations, key length to bytes).
  Theorems that need the primitive's contract (output length = requested key
  length, output bytes `< 256`) take it as a hypothesis; `testKdf` is a
  concrete instance used to evaluate statements on concrete inputs.
* `promisify(randomBytes)(16)` is modelled by passing the generated salt
  bytes as an explicit argument.
* JS exceptions become `Except PwError`. -/

set_option maxHeartbeats 1000000

/-- Errors thrown by the JS code, classified by throw site: the too-short
guard of `hashPassword`, the `strictEqual` assertions of `verifyPassword`,
errors raised by the `pbkdf2` primitive on bad parameters, and the
`RangeError` of `crypto.timingSafeEqual` on buffers of different lengths. -/
inductive PwError where
  | invalidInput (msg : String)
  | malformedHash (msg : String)
  | cryptoBackend (msg : String)
  | lengthMismatch
  deriving DecidableEq, Repr

/-- The salt argument Node's `pbkdf2` receives: a JS string or a byte buffer. -/
inductive KdfSalt where
  | str (s : String)
  | bytes (bs : List Nat)
  deriving DecidableEq, Repr

/-- The sixteen lowercase hex digits, as `Buffer.toString('hex')` uses. -/
def hexAlphabet : List Char := "0123456789abcdef".data

/-- Render one value in `0..15` as a lowercase hex digit. -/
def hexDigitChar (n : Nat) : Char := hexAlphabet.getD n '0'

/-- `Buffer.toString('hex')`: two lowercase hex digits per byte. -/
def bytesToHex (bs : List Nat) : String :=
  String.mk (bs.flatMap fun b => [hexDigitChar (b / 16), hexDigitChar (b % 16)])

/-- Value of a hex digit, accepting both cases as Node's hex decoder does. -/
def hexCharVal (c : Char) : Option Nat :=
  if '0' ≤ c ∧ c ≤ '9' then some (c.toNat - 48)
  else if 'a' ≤ c ∧ c ≤ 'f' then some (c.toNat - 87)
  else if 'A' ≤ c ∧ c ≤ 'F' then some (c.toNat - 55)
  else none

/-- `Buffer.from(s, 'hex')` on the character list: decode hex pairs left to
right, truncating at the first invalid pair or lone trailing digit; Node's
hex decoder never throws. -/
def hexDecodeChars : List Char → List Nat
  | c1 :: c2 :: rest =>
    match hexCharVal c1, hexCharVal c2 with
    | some v1, some v2 => (v1 * 16 + v2) :: hexDecodeChars rest
    | _, _ => []
  | _ => []

/-- `Buffer.from(s, 'hex')`. -/
def hexDecode (s : String) : List Nat := hexDecodeChars s.data

/-- The standard base64 alphabet, as `Buffer.toString('base64')` uses. -/
def b64Alphabet : List Char :=
  "ABCDEFGHIJKLMNOPQRSTUVWXYZabcdefghijklmnopqrstuvwxyz0123456789+/".data

/-- Render one value in `0..63` as a base64 alphabet character. -/
def b64Char (n : Nat) : Char := b64Alphabet.getD n 'A'

/-- `Buffer.toString('base64')` on the byte list: standard alphabet, groups
of three bytes to four characters, `=` padding. -/
def base64EncodeChars : List Nat → List Char
  | [] => []
  | [b1] => [b64Char (b1 / 4), b64Char (b1 % 4 * 16), '=', '=']
  | [b1, b2] =>
    [b64Char (b1 / 4), b64Char (b1 % 4 * 16 + b2 / 16), b64Char (b2 % 16 * 4), '=']
  | b1 :: b2 :: b3 :: rest =>
    b64Char (b1 / 4) :: b64Char (b1 % 4 * 16 + b2 / 16) ::
      b64Char (b2 % 16 * 4 + b3 / 64) :: b64Char (b3 % 64) :: base64EncodeChars rest

/-- `Buffer.toString('base64')`. -/
def base64Encode (bs : List Nat) : String := String.mk (base64EncodeChars bs)

/-- Value of a base64 alphabet character; `=` and everything else is `none`. -/
def b64CharVal (c : Char) : Option Nat :=
  if 'A' ≤ c ∧ c ≤ 'Z' then some (c.toNat - 65)
  else if 'a' ≤ c ∧ c ≤ 'z' then some (c.toNat - 71)
  else if '0' ≤ c ∧ c ≤ '9' then some (c.toNat + 4)
  else if c = '+' then some 62
  else if c = '/' then some 63
  else none

/-- Regroup recovered 6-bit values into bytes: full groups of four give three
bytes, a partial tail of three gives two, of two gives one, as Node's
forgiving base64 decoder does. -/
def b64Regroup : List Nat → List Nat
  | v1 :: v2 :: v3 :: v4 :: rest =>
    (v1 * 4 + v2 / 16) :: (v2 % 16 * 16 + v3 / 4) :: (v3 % 4 * 64 + v4) :: b64Regroup rest
  | [v1, v2, v3] => [v1 * 4 + v2 / 16, v2 % 16 * 16 + v3 / 4]
  | [v1, v2] => [v1 * 4 + v2 / 16]
  | _ => []

/-- `Buffer.from(s, 'base64')`: drop characters outside the alphabet
(including padding), regroup the rest; never throws. -/
def base64Decode (s : String) : List Nat :=
  b64Regroup (s.data.filterMap b64CharVal)

/-- JS `String.prototype.split('$')` on the character list. -/
def splitChars : List Char → List (List Char)
  | [] => [[]]
  | c :: rest =>
    if c = '$' then [] :: splitChars rest
    else
      match splitChars rest with
      | [] => [[c]]
      | g :: gs => (c :: g) :: gs

/-- JS `passwordHash.split('$')`. -/
def jsSplit (s : String) : List String := (splitChars s.data).map String.mk

/-- JS `parseInt(s, 10)`: skip leading whitespace, read an optional sign and
then the longest leading run of decimal digits; `none` models `NaN`. -/
def parseIntJS (s : String) : Option Int :=
  let cs := s.data.dropWhile Char.isWhitespace
  let signAndRest : Int × List Char :=
    match cs with
    | '-' :: rest => (-1, rest)
    | '+' :: rest => (1, rest)
    | _ => (1, cs)
  let ds := signAndRest.2.takeWhile fun c => decide ('0' ≤ c ∧ c ≤ '9')
  if ds.isEmpty then none
  else some (signAndRest.1 * Int.ofNat (ds.foldl (fun acc c => acc * 10 + (c.toNat - 48)) 0))

/-- Abstract PBKDF2 primitive: password, salt argument, iterations, key
length, producing the derived key bytes. -/
abbrev Kdf := String → KdfSalt → Nat → Nat → List Nat

/-- `promisify(pbkdf2)(password, salt, iterations, keylen, 'sha256')`: Node
rejects a non-positive iteration count with an error before any derivation;
otherwise the trusted primitive returns a `keylen`-byte key. -/
def pbkdf2Call (kdf : Kdf) (password : String) (salt : KdfSalt)
    (iterations : Int) (keylen : Nat) : Except PwError (List Nat) :=
  if iterations ≤ 0 then
    Except.error (PwError.cryptoBackend "Iteration count out of range")
  else
    Except.ok (kdf password salt iterations.toNat keylen)

/-- `crypto.timingSafeEqual`: throws a `RangeError` on buffers of different
byte length, otherwise reports byte-wise equality. -/
def timingSafeEqual (a b : List Nat) : Except PwError Bool :=
  if a.length = b.length then Except.ok (decide (a = b))
  else Except.error PwError.lengthMismatch

/-- Source `parsePassword` (the legacy hashing path); the sixteen random
bytes from `promisify(randomBytes)(16)` are passed in as `saltBytes`. -/
def parsePassword (kdf : Kdf) (saltBytes : List Nat) (password : String) :
    Except PwError String := do
  let salt := bytesToHex saltBytes
  let iterations : Int := 100000
  let keylen := 64
  let digest := "sha256"
  let derivedKey ← pbkdf2Call kdf password (KdfSalt.str salt) iterations keylen
  Except.ok ("pbkdf2_" ++ digest ++ "$" ++ toString iterations ++ "$" ++ salt ++ "$" ++
    bytesToHex derivedKey)

/-- JS `String.prototype.trim`: drop whitespace from both ends.  (Lean's
own `String.trim` is not used because its byte-position arithmetic does not
reduce definitionally.) -/
def jsTrim (s : String) : String :=
  String.mk (((s.data.dropWhile Char.isWhitespace).reverse.dropWhile
    Char.isWhitespace).reverse)

/-- Source `hashPassword`; the sixteen random salt bytes are passed in
explicitly in place of the `randomBytes` call. -/
def hashPassword (kdf : Kdf) (saltBytes : List Nat) (plainTextPassword : String)
    (legacy : Bool) : Except PwError String :=
  if (jsTrim plainTextPassword).length < 6 then
    Except.error (PwError.invalidInput "Password invalid: too short")
  else if legacy then
    parsePassword kdf saltBytes plainTextPassword
  else do
    let iterations : Int := 150000
    let keylen := 32
    let digest := "sha256"
    let derivedKeyBuffer ←
      pbkdf2Call kdf plainTextPassword (KdfSalt.bytes saltBytes) iterations keylen
    let salt := base64Encode saltBytes
    let derivedKey := base64Encode derivedKeyBuffer
    Except.ok ("pbkdf2_" ++ digest ++ "$" ++ toString iterations ++ "$" ++ salt ++ "$" ++
      derivedKey)

/-- Source `verifyPassword`.  JS array destructuring of `split('$')` yields
`undefined` (here `none`) for missing positions and ignores extra fields;
`strictEqual` failures carry the source's assertion messages. -/
def verifyPassword (kdf : Kdf) (plainTextPassword passwordHash : String)
    (legacy : Bool) : Except PwError Bool :=
  let parts := jsSplit passwordHash
  let algorithm := parts[0]?
  let iterationsField := parts[1]?
  let saltField := parts[2]?
  let derivedKeyField := parts[3]?
  if algorithm ≠ some "pbkdf2_sha256" then
    Except.error (PwError.malformedHash "Invalid algorithm.")
  else
    match iterationsField, saltField, derivedKeyField with
    | some iterations, some salt, some derivedKey =>
      match parseIntJS iterations with
      | none => Except.error (PwError.malformedHash "Invalid password format.")
      | some n => do
        let saltBuffer := if legacy then hexDecode salt else base64Decode salt
        let derivedKeyBuffer := if legacy then hexDecode derivedKey else base64Decode derivedKey
        let password ← pbkdf2Call kdf plainTextPassword
          (if legacy then KdfSalt.str (bytesToHex saltBuffer) else KdfSalt.bytes saltBuffer)
          n derivedKeyBuffer.length
        timingSafeEqual password derivedKeyBuffer
    | _, _, _ => Except.error (PwError.malformedHash "Invalid password format.")

/-- Does a result carry the `MalformedHashError` of the spec's taxonomy, that
is, one of `verifyPassword`'s `strictEqual` assertion failures? -/
def isMalformedErr : Except PwError Bool → Bool
  | Except.error (PwError.malformedHash _) => true
  | _ => false

/-- A well-formed hex string in the spec's sense: even length, hex digits
only.  (Comparison definition for the decoding claims; Node's decoder itself
accepts anything.) -/
def isHexString (s : String) : Bool :=
  s.length % 2 = 0 && s.data.all fun c => (hexCharVal c).isSome

/-- Concrete stand-in for the PBKDF2 primitive's salt dependency. -/
def kdfSaltCode : KdfSalt → Nat
  | KdfSalt.str s => 2 * s.data.foldl (fun a c => a + c.toNat) 7
  | KdfSalt.bytes bs => 2 * bs.foldl (fun a b => a + b) 0 + 1

/-- Concrete stand-in for the PBKDF2 primitive: honours the length contract,
produces bytes, and depends on every argument, so that statements about the
wrapper code can be evaluated on concrete inputs. -/
def testKdf : Kdf := fun password salt iterations keylen =>
  (List.range keylen).map fun i =>
    (password.data.foldl (fun a c => a + c.toNat) 0 * 11 + kdfSaltCode salt +
      iterations + i) % 256

/-- A second concrete KDF instance (used to exhibit KDF-independence of the
parse-stage failures on concrete inputs). -/
def zeroKdf : Kdf := fun _ _ _ kl => List.replicate kl 0

theorem testKdf_length (pw : String) (s : KdfSalt) (it kl : Nat) :
    (testKdf pw s it kl).length = kl := by
  simp [testKdf]

theorem testKdf_lt (pw : String) (s : KdfSalt) (it kl : Nat) :
    ∀ b ∈ testKdf pw s it kl, b < 256 := by
  intro b hb
  simp only [testKdf, List.mem_map, List.mem_range] at hb
  obtain ⟨i, hi, rfl⟩ := hb
  exact Nat.mod_lt _ (by norm_num)

/-! ### Properties of the hex codec -/

theorem hexCharVal_hexDigitChar : ∀ v : Nat, v < 16 → hexCharVal (hexDigitChar v) = some v := by
  decide

theorem hexAlphabet_length : hexAlphabet.length = 16 := by decide

theorem hexDigitChar_ne_dollar (v : Nat) : hexDigitChar v ≠ '$' := by
  rcases Nat.lt_or_ge v 16 with h | h
  · exact (by decide : ∀ w : Nat, w < 16 → hexDigitChar w ≠ '$') v h
  · unfold hexDigitChar
    rw [List.getD_eq_default _ _ (by rw [hexAlphabet_length]; exact h)]
    decide

theorem hexDecodeChars_flatMap : ∀ bs : List Nat, (∀ b ∈ bs, b < 256) →
    hexDecodeChars (bs.flatMap fun b => [hexDigitChar (b / 16), hexDigitChar (b % 16)]) = bs
  | [], _ => rfl
  | b :: rest, h => by
    have hb : b < 256 := h b (List.mem_cons_self ..)
    have h1 : hexCharVal (hexDigitChar (b / 16)) = some (b / 16) :=
      hexCharVal_hexDigitChar _ (by omega)
    have h2 : hexCharVal (hexDigitChar (b % 16)) = some (b % 16) :=
      hexCharVal_hexDigitChar _ (by omega)
    have ih := hexDecodeChars_flatMap rest (fun x hx => h x (List.mem_cons_of_mem _ hx))
    simp only [List.flatMap_cons, List.cons_append, List.nil_append, hexDecodeChars, h1, h2, ih]
    congr 1
    omega

/-- Decoding inverts `Buffer.toString('hex')` on byte lists. -/
theorem hexDecode_bytesToHex (bs : List Nat) (h : ∀ b ∈ bs, b < 256) :
    hexDecode (bytesToHex bs) = bs :=
  hexDecodeChars_flatMap bs h

theorem dollar_not_mem_bytesToHex (bs : List Nat) : '$' ∉ (bytesToHex bs).data := by
  show '$' ∉ bs.flatMap fun b => [hexDigitChar (b / 16), hexDigitChar (b % 16)]
  intro hmem
  rcases List.mem_flatMap.mp hmem with ⟨b, _, hc⟩
  simp only [List.mem_cons, List.not_mem_nil, or_false] at hc
  rcases hc with h | h
  · exact hexDigitChar_ne_dollar _ h.symm
  · exact hexDigitChar_ne_dollar _ h.symm

/-! ### Properties of the base64 codec -/

theorem b64CharVal_b64Char : ∀ v : Nat, v < 64 → b64CharVal (b64Char v) = some v := by
  decide

theorem b64Alphabet_length : b64Alphabet.length = 64 := by decide

theorem b64Char_ne_dollar (v : Nat) : b64Char v ≠ '$' := by
  rcases Nat.lt_or_ge v 64 with h | h
  · exact (by decide : ∀ w : Nat, w < 64 → b64Char w ≠ '$') v h
  · unfold b64Char
    rw [List.getD_eq_default _ _ (by rw [b64Alphabet_length]; exact h)]
    decide

theorem b64CharVal_eq : b64CharVal '=' = none := rfl

theorem base64_roundtrip : ∀ bs : List Nat, (∀ b ∈ bs, b < 256) →
    b64Regroup ((base64EncodeChars bs).filterMap b64CharVal) = bs
  | [], _ => rfl
  | [b1], h => by
    have hb : b1 < 256 := h b1 (by simp)
    have e1 := b64CharVal_b64Char (b1 / 4) (by omega)
    have e2 := b64CharVal_b64Char (b1 % 4 * 16) (by omega)
    simp only [base64EncodeChars, List.filterMap_cons, e1, e2, b64CharVal_eq,
      List.filterMap_nil, b64Regroup]
    congr 1
    omega
  | [b1, b2], h => by
    have hb1 : b1 < 256 := h b1 (by simp)
    have hb2 : b2 < 256 := h b2 (by simp)
    have e1 := b64CharVal_b64Char (b1 / 4) (by omega)
    have e2 := b64CharVal_b64Char (b1 % 4 * 16 + b2 / 16) (by omega)
    have e3 := b64CharVal_b64Char (b2 % 16 * 4) (by omega)
    simp only [base64EncodeChars, List.filterMap_cons, e1, e2, e3, b64CharVal_eq,
      List.filterMap_nil, b64Regroup]
    have g1 : b1 / 4 * 4 + (b1 % 4 * 16 + b2 / 16) / 16 = b1 := by omega
    have g2 : (b1 % 4 * 16 + b2 / 16) % 16 * 16 + b2 % 16 * 4 / 4 = b2 := by omega
    rw [g1, g2]
  | b1 :: b2 :: b3 :: b4 :: rest, h => by
    have hb1 : b1 < 256 := h b1 (by simp)
    have hb2 : b2 < 256 := h b2 (by simp)
    have hb3 : b3 < 256 := h b3 (by simp)
    have e1 := b64CharVal_b64Char (b1 / 4) (by omega)
    have e2 := b64CharVal_b64Char (b1 % 4 * 16 + b2 / 16) (by omega)
    have e3 := b64CharVal_b64Char (b2 % 16 * 4 + b3 / 64) (by omega)
    have e4 := b64CharVal_b64Char (b3 % 64) (by omega)
    have ih := base64_roundtrip (b4 :: rest)
      (fun x hx => h x (by simp only [List.mem_cons] at hx ⊢; tauto))
    simp only [base64EncodeChars, List.filterMap_cons, e1, e2, e3, e4, b64Regroup, ih]
    have g1 : b1 / 4 * 4 + (b1 % 4 * 16 + b2 / 16) / 16 = b1 := by omega
    have g2 : (b1 % 4 * 16 + b2 / 16) % 16 * 16 + (b2 % 16 * 4 + b3 / 64) / 4 = b2 := by
      omega
    have g3 : (b2 % 16 * 4 + b3 / 64) % 4 * 64 + b3 % 64 = b3 := by omega
    rw [g1, g2, g3]
  | [b1, b2, b3], h => by
    have hb1 : b1 < 256 := h b1 (by simp)
    have hb2 : b2 < 256 := h b2 (by simp)
    have hb3 : b3 < 256 := h b3 (by simp)
    have e1 := b64CharVal_b64Char (b1 / 4) (by omega)
    have e2 := b64CharVal_b64Char (b1 % 4 * 16 + b2 / 16) (by omega)
    have e3 := b64CharVal_b64Char (b2 % 16 * 4 + b3 / 64) (by omega)
    have e4 := b64CharVal_b64Char (b3 % 64) (by omega)
    simp only [base64EncodeChars, List.filterMap_cons, e1, e2, e3, e4, b64CharVal_eq,
      List.filterMap_nil, b64Regroup]
    have g1 : b1 / 4 * 4 + (b1 % 4 * 16 + b2 / 16) / 16 = b1 := by omega
    have g2 : (b1 % 4 * 16 + b2 / 16) % 16 * 16 + (b2 % 16 * 4 + b3 / 64) / 4 = b2 := by
      omega
    have g3 : (b2 % 16 * 4 + b3 / 64) % 4 * 64 + b3 % 64 = b3 := by omega
    rw [g1, g2, g3]

/-- Decoding inverts `Buffer.toString('base64')` on byte lists. -/
theorem base64Decode_base64Encode (bs : List Nat) (h : ∀ b ∈ bs, b < 256) :
    base64Decode (base64Encode bs) = bs :=
  base64_roundtrip bs h

theorem dollar_not_mem_base64EncodeChars : ∀ bs : List Nat, '$' ∉ base64EncodeChars bs
  | [] => by simp [base64EncodeChars]
  | [b1] => by
    simp only [base64EncodeChars, List.mem_cons, List.not_mem_nil, or_false]
    push_neg
    exact ⟨(b64Char_ne_dollar _).symm, (b64Char_ne_dollar _).symm, by decide, by decide⟩
  | [b1, b2] => by
    simp only [base64EncodeChars, List.mem_cons, List.not_mem_nil, or_false]
    push_neg
    exact ⟨(b64Char_ne_dollar _).symm, (b64Char_ne_dollar _).symm,
      (b64Char_ne_dollar _).symm, by decide⟩
  | b1 :: b2 :: b3 :: b4 :: rest => by
    have ih := dollar_not_mem_base64EncodeChars (b4 :: rest)
    simp only [base64EncodeChars, List.mem_cons] at ih ⊢
    push_neg
    refine ⟨(b64Char_ne_dollar _).symm, (b64Char_ne_dollar _).symm,
      (b64Char_ne_dollar _).symm, (b64Char_ne_dollar _).symm, ?_⟩
    intro hmem
    exact ih hmem
  | [b1, b2, b3] => by
    simp only [base64EncodeChars, List.mem_cons, List.not_mem_nil, or_false]
    push_neg
    exact ⟨(b64Char_ne_dollar _).symm, (b64Char_ne_dollar _).symm,
      (b64Char_ne_dollar _).symm, (b64Char_ne_dollar _).symm⟩

theorem dollar_not_mem_base64Encode (bs : List Nat) : '$' ∉ (base64Encode bs).data :=
  dollar_not_mem_base64EncodeChars bs

/-! ### Properties of the `$`-split -/

theorem splitChars_ne_nil : ∀ cs : List Char, splitChars cs ≠ []
  | [] => by simp [splitChars]
  | c :: rest => by
    by_cases hc : c = '$'
    · simp [splitChars, hc]
    · simp only [splitChars, if_neg hc]
      cases h : splitChars rest with
      | nil => simp
      | cons g gs => simp

theorem splitChars_of_not_mem : ∀ cs : List Char, '$' ∉ cs → splitChars cs = [cs]
  | [], _ => rfl
  | c :: rest, h => by
    have hc : ¬c = '$' := fun e => h (e ▸ List.mem_cons_self ..)
    have hr := splitChars_of_not_mem rest fun m => h (List.mem_cons_of_mem _ m)
    simp [splitChars, hc, hr]

theorem splitChars_append_dollar : ∀ (l rest : List Char), '$' ∉ l →
    splitChars (l ++ '$' :: rest) = l :: splitChars rest
  | [], rest, _ => by simp [splitChars]
  | c :: l, rest, h => by
    have hc : ¬c = '$' := fun e => h (e ▸ List.mem_cons_self ..)
    have ih := splitChars_append_dollar l rest fun m => h (List.mem_cons_of_mem _ m)
    simp [splitChars, hc, ih]

theorem data_dollar : "$".data = ['$'] := rfl

/-- Splitting a four-field string whose fields carry no `$`. -/
theorem jsSplit_four (s1 s2 s3 s4 : String)
    (h1 : '$' ∉ s1.data) (h2 : '$' ∉ s2.data) (h3 : '$' ∉ s3.data) (h4 : '$' ∉ s4.data) :
    jsSplit (s1 ++ "$" ++ s2 ++ "$" ++ s3 ++ "$" ++ s4) = [s1, s2, s3, s4] := by
  unfold jsSplit
  have hdata : (s1 ++ "$" ++ s2 ++ "$" ++ s3 ++ "$" ++ s4).data
      = s1.data ++ '$' :: (s2.data ++ '$' :: (s3.data ++ '$' :: s4.data)) := by
    simp [String.data_append, data_dollar, List.append_assoc]
  rw [hdata, splitChars_append_dollar _ _ h1, splitChars_append_dollar _ _ h2,
    splitChars_append_dollar _ _ h3, splitChars_of_not_mem _ h4]
  rfl

/-! ### The two hashing paths, written out -/

/-- The default hashing path, with `150000` iterations, a 32-byte key, the
raw salt bytes as KDF salt input and base64 encoding. -/
theorem hashPassword_default_eq (kdf : Kdf) (salt : List Nat) (p : String)
    (hp : 6 ≤ (jsTrim p).length) :
    hashPassword kdf salt p false =
      Except.ok ("pbkdf2_sha256" ++ "$" ++ "150000" ++ "$" ++ base64Encode salt ++ "$" ++
        base64Encode (kdf p (KdfSalt.bytes salt) 150000 32)) := by
  unfold hashPassword
  rw [if_neg (by omega)]
  rfl

/-- The legacy hashing path, with `100000` iterations, a 64-byte key, the
hex rendering of the salt as KDF salt input and hex encoding. -/
theorem hashPassword_legacy_eq (kdf : Kdf) (salt : List Nat) (p : String)
    (hp : 6 ≤ (jsTrim p).length) :
    hashPassword kdf salt p true =
      Except.ok ("pbkdf2_sha256" ++ "$" ++ "100000" ++ "$" ++ bytesToHex salt ++ "$" ++
        bytesToHex (kdf p (KdfSalt.str (bytesToHex salt)) 100000 64)) := by
  unfold hashPassword parsePassword
  rw [if_neg (by omega)]
  rfl

/-- `verifyPassword` on a string whose split starts with the expected
algorithm tag and a field parsing to a positive iteration count: decode in
the selected encoding, re-derive with key length equal to the decoded stored
key's byte length, and compare. -/
theorem verifyPassword_parsed (kdf : Kdf)
    (hlen : ∀ pw s it kl, (kdf pw s it kl).length = kl)
    (p hstr : String) (legacy : Bool) (itS saltS dkS : String) (rest : List String)
    (n : Int)
    (hsplit : jsSplit hstr = "pbkdf2_sha256" :: itS :: saltS :: dkS :: rest)
    (hn : parseIntJS itS = some n) (hpos : 0 < n) :
    verifyPassword kdf p hstr legacy =
      Except.ok (decide (kdf p
          (if legacy then KdfSalt.str (bytesToHex (hexDecode saltS))
            else KdfSalt.bytes (base64Decode saltS))
          n.toNat ((if legacy then hexDecode dkS else base64Decode dkS).length)
        = (if legacy then hexDecode dkS else base64Decode dkS))) := by
  unfold verifyPassword
  rw [hsplit]
  simp only [List.getElem?_cons_zero, List.getElem?_cons_succ, ne_eq, not_true_eq_false,
    if_false, hn]
  unfold pbkdf2Call
  rw [if_neg (by omega)]
  show timingSafeEqual _ _ = _
  unfold timingSafeEqual
  rw [if_pos (hlen ..)]
  cases legacy <;> simp


/-- Once `verifyPassword` reaches the derive-and-compare stage, no
`strictEqual` assertion can fire any more: the result is a success value, a
crypto-primitive error, or a comparison length error, never `malformedHash`. -/
theorem isMalformedErr_derive_stage (kdf : Kdf) (pw : String) (saltArg : KdfSalt)
    (n : Int) (dkb : List Nat) :
    isMalformedErr (pbkdf2Call kdf pw saltArg n dkb.length >>= fun password =>
      timingSafeEqual password dkb) = false := by
  unfold pbkdf2Call
  split
  · rfl
  · show isMalformedErr (timingSafeEqual _ _) = false
    unfold timingSafeEqual
    split
    · rfl
    · rfl

/-! ### C9 -/

/-- C9: in `verifyPassword` the re-derivation key length is the decoded
stored key's byte length, so the two buffers handed to `timingSafeEqual`
always have equal length and its length-mismatch error is unreachable, for
every plaintext, stored string and mode. -/
theorem verify_no_length_mismatch (kdf : Kdf)
    (hlen : ∀ pw s it kl, (kdf pw s it kl).length = kl)
    (p s : String) (legacy : Bool) :
    verifyPassword kdf p s legacy ≠ Except.error PwError.lengthMismatch := by
  unfold verifyPassword
  generalize jsSplit s = parts
  rcases parts with _ | ⟨a, _ | ⟨b, _ | ⟨c, _ | ⟨d, rest⟩⟩⟩⟩ <;>
    simp only [List.getElem?_cons_zero, List.getElem?_cons_succ, List.getElem?_nil]
  · split
    · simp
    · simp
  · split
    · simp
    · simp
  · split
    · simp
    · simp
  · split
    · simp
    · simp
  · split
    · simp
    · rcases hb : parseIntJS b with _ | n
      · simp
      · simp only []
        unfold pbkdf2Call
        by_cases hn0 : n ≤ 0
        · rw [if_pos hn0]
          intro hcon
          exact PwError.noConfusion (Except.error.inj hcon)
        · rw [if_neg hn0]
          show timingSafeEqual _ _ ≠ _
          unfold timingSafeEqual
          rw [if_pos (hlen ..)]
          simp

theorem verify_no_length_mismatch_witness :
    verifyPassword testKdf "secret" "pbkdf2_sha256$150000$AA==$AA==" false ≠
      Except.error PwError.lengthMismatch :=
  verify_no_length_mismatch testKdf testKdf_length "secret" "pbkdf2_sha256$150000$AA==$AA==" false

/-- `verifyPassword_parsed`, specialised to the default (base64) mode. -/
theorem verifyPassword_parsed_default (kdf : Kdf)
    (hlen : ∀ pw s it kl, (kdf pw s it kl).length = kl)
    (p hstr : String) (itS saltS dkS : String) (rest : List String) (n : Int)
    (hsplit : jsSplit hstr = "pbkdf2_sha256" :: itS :: saltS :: dkS :: rest)
    (hn : parseIntJS itS = some n) (hpos : 0 < n) :
    verifyPassword kdf p hstr false =
      Except.ok (decide (kdf p (KdfSalt.bytes (base64Decode saltS)) n.toNat
        ((base64Decode dkS).length) = base64Decode dkS)) := by
  rw [verifyPassword_parsed kdf hlen p hstr false itS saltS dkS rest n hsplit hn hpos]
  rfl

/-- `verifyPassword_parsed`, specialised to the legacy (hex) mode. -/
theorem verifyPassword_parsed_legacy (kdf : Kdf)
    (hlen : ∀ pw s it kl, (kdf pw s it kl).length = kl)
    (p hstr : String) (itS saltS dkS : String) (rest : List String) (n : Int)
    (hsplit : jsSplit hstr = "pbkdf2_sha256" :: itS :: saltS :: dkS :: rest)
    (hn : parseIntJS itS = some n) (hpos : 0 < n) :
    verifyPassword kdf p hstr true =
      Except.ok (decide (kdf p (KdfSalt.str (bytesToHex (hexDecode saltS))) n.toNat
        ((hexDecode dkS).length) = hexDecode dkS)) := by
  rw [verifyPassword_parsed kdf hlen p hstr true itS saltS dkS rest n hsplit hn hpos]
  rfl

/-! ### C6 -/

/-- C6: a plaintext whose trimmed length is below six is rejected with the
too-short `InvalidInputError` in both modes; the rejection is the same for
every salt and every KDF, so it happens before any salt generation or
derivation work. -/
theorem hashPassword_short_rejected (kdf : Kdf) (saltBytes : List Nat) (p : String)
    (legacy : Bool) (h : (jsTrim p).length < 6) :
    hashPassword kdf saltBytes p legacy =
      Except.error (PwError.invalidInput "Password invalid: too short") := by
  unfold hashPassword
  rw [if_pos h]

theorem hashPassword_short_rejected_witness :
    hashPassword testKdf [] "  ab  " true =
      Except.error (PwError.invalidInput "Password invalid: too short") :=
  hashPassword_short_rejected testKdf [] "  ab  " true (by decide)

/-! ### C7 -/

/-- C7: with a 16-byte salt, the default mode produces
`pbkdf2_sha256$150000$<base64 salt>$<base64 key>` with a 32-byte derived
key, and the legacy mode produces `pbkdf2_sha256$100000$<hex salt>$<hex
key>` with a 64-byte derived key. -/
theorem hashPassword_format (kdf : Kdf)
    (hlen : ∀ pw s it kl, (kdf pw s it kl).length = kl)
    (salt : List Nat) (p : String) (_hsalt : salt.length = 16) (hp : 6 ≤ (jsTrim p).length) :
    (hashPassword kdf salt p false =
        Except.ok ("pbkdf2_sha256" ++ "$" ++ "150000" ++ "$" ++ base64Encode salt ++ "$" ++
          base64Encode (kdf p (KdfSalt.bytes salt) 150000 32))
      ∧ (kdf p (KdfSalt.bytes salt) 150000 32).length = 32)
    ∧ (hashPassword kdf salt p true =
        Except.ok ("pbkdf2_sha256" ++ "$" ++ "100000" ++ "$" ++ bytesToHex salt ++ "$" ++
          bytesToHex (kdf p (KdfSalt.str (bytesToHex salt)) 100000 64))
      ∧ (kdf p (KdfSalt.str (bytesToHex salt)) 100000 64).length = 64) :=
  ⟨⟨hashPassword_default_eq kdf salt p hp, hlen ..⟩,
    ⟨hashPassword_legacy_eq kdf salt p hp, hlen ..⟩⟩

theorem hashPassword_format_witness :
    hashPassword testKdf (List.range 16) "hunter2" false =
      Except.ok ("pbkdf2_sha256" ++ "$" ++ "150000" ++ "$" ++ base64Encode (List.range 16) ++
        "$" ++ base64Encode (testKdf "hunter2" (KdfSalt.bytes (List.range 16)) 150000 32)) :=
  (hashPassword_format testKdf testKdf_length (List.range 16) "hunter2" (by decide)
    (by decide)).1.1

/-! ### C2 -/

/-- C2: the stored hash `pbkdf2_sha256$1$$`, with empty salt and key fields,
verifies as `true` against every plaintext: the empty fields decode to empty
buffers, the KDF is invoked with key length zero, and the comparison of two
empty buffers reports equality. -/
theorem verify_empty_fields_true (kdf : Kdf)
    (hlen : ∀ pw s it kl, (kdf pw s it kl).length = kl) (p : String) :
    verifyPassword kdf p "pbkdf2_sha256$1$$" false = Except.ok true := by
  have hsplit : jsSplit "pbkdf2_sha256$1$$" = "pbkdf2_sha256" :: "1" :: "" :: "" :: [] := by
    decide
  rw [verifyPassword_parsed_default kdf hlen p _ "1" "" "" [] 1 hsplit rfl (by norm_num)]
  have hz : kdf p (KdfSalt.bytes (base64Decode "")) (Int.toNat 1)
      ((base64Decode "").length) = [] :=
    List.length_eq_zero.mp ((hlen ..).trans rfl)
  rw [hz]
  rfl

theorem verify_empty_fields_true_witness :
    verifyPassword testKdf "any password at all" "pbkdf2_sha256$1$$" false = Except.ok true :=
  verify_empty_fields_true testKdf testKdf_length "any password at all"

/-! ### C3 -/

/-- C3: round-trip in the default mode — verifying a password against the
hash freshly produced for it (same injected salt, `legacy` unset on both
sides) yields `true`, for every salt and every password of trimmed length at
least six. -/
theorem roundtrip_default (kdf : Kdf)
    (hlen : ∀ pw s it kl, (kdf pw s it kl).length = kl)
    (hbytes : ∀ pw s it kl, ∀ b ∈ kdf pw s it kl, b < 256)
    (salt : List Nat) (p : String) (hsalt : ∀ b ∈ salt, b < 256)
    (hp : 6 ≤ (jsTrim p).length) (hstr : String)
    (hh : hashPassword kdf salt p false = Except.ok hstr) :
    verifyPassword kdf p hstr false = Except.ok true := by
  have he := hashPassword_default_eq kdf salt p hp
  rw [hh] at he
  obtain rfl := Except.ok.inj he
  have hsplit := jsSplit_four "pbkdf2_sha256" "150000" (base64Encode salt)
    (base64Encode (kdf p (KdfSalt.bytes salt) 150000 32)) (by decide) (by decide)
    (dollar_not_mem_base64Encode _) (dollar_not_mem_base64Encode _)
  rw [verifyPassword_parsed_default kdf hlen p _ "150000" (base64Encode salt)
    (base64Encode (kdf p (KdfSalt.bytes salt) 150000 32)) [] 150000 hsplit (by decide)
    (by norm_num)]
  rw [base64Decode_base64Encode salt hsalt,
    base64Decode_base64Encode _ (hbytes p (KdfSalt.bytes salt) 150000 32),
    hlen p (KdfSalt.bytes salt) 150000 32]
  simp

theorem roundtrip_default_witness :
    verifyPassword testKdf "hunter2!" ("pbkdf2_sha256" ++ "$" ++ "150000" ++ "$" ++
      base64Encode (List.range 16) ++ "$" ++
      base64Encode (testKdf "hunter2!" (KdfSalt.bytes (List.range 16)) 150000 32)) false =
      Except.ok true :=
  roundtrip_default testKdf testKdf_length testKdf_lt (List.range 16) "hunter2!"
    (by decide) (by decide) _
    (hashPassword_default_eq testKdf (List.range 16) "hunter2!" (by decide))

/-! ### C10 -/

/-- C10: the KDF receives the untrimmed plaintext in both operations —
hashing `p` derives the stored key from `p` itself, and verifying the
trimmed password against that hash compares the key derived from `jsTrim p`
with the stored key derived from `p`. -/
theorem untrimmed_password_to_kdf (kdf : Kdf)
    (hlen : ∀ pw s it kl, (kdf pw s it kl).length = kl)
    (hbytes : ∀ pw s it kl, ∀ b ∈ kdf pw s it kl, b < 256)
    (salt : List Nat) (p : String) (hsalt : ∀ b ∈ salt, b < 256)
    (hp : 6 ≤ (jsTrim p).length) :
    (hashPassword kdf salt p false =
        Except.ok ("pbkdf2_sha256" ++ "$" ++ "150000" ++ "$" ++ base64Encode salt ++ "$" ++
          base64Encode (kdf p (KdfSalt.bytes salt) 150000 32)))
    ∧ (∀ hstr, hashPassword kdf salt p false = Except.ok hstr →
        verifyPassword kdf (jsTrim p) hstr false =
          Except.ok (decide (kdf (jsTrim p) (KdfSalt.bytes salt) 150000 32 =
            kdf p (KdfSalt.bytes salt) 150000 32))) := by
  refine ⟨hashPassword_default_eq kdf salt p hp, ?_⟩
  intro hstr hh
  have he := hashPassword_default_eq kdf salt p hp
  rw [hh] at he
  obtain rfl := Except.ok.inj he
  have hsplit := jsSplit_four "pbkdf2_sha256" "150000" (base64Encode salt)
    (base64Encode (kdf p (KdfSalt.bytes salt) 150000 32)) (by decide) (by decide)
    (dollar_not_mem_base64Encode _) (dollar_not_mem_base64Encode _)
  rw [verifyPassword_parsed_default kdf hlen (jsTrim p) _ "150000" (base64Encode salt)
    (base64Encode (kdf p (KdfSalt.bytes salt) 150000 32)) [] 150000 hsplit (by decide)
    (by norm_num)]
  rw [base64Decode_base64Encode salt hsalt,
    base64Decode_base64Encode _ (hbytes p (KdfSalt.bytes salt) 150000 32),
    hlen p (KdfSalt.bytes salt) 150000 32]
  rfl

theorem untrimmed_password_to_kdf_witness :
    verifyPassword testKdf (jsTrim " secret ") ("pbkdf2_sha256" ++ "$" ++ "150000" ++ "$" ++
      base64Encode (List.range 16) ++ "$" ++
      base64Encode (testKdf " secret " (KdfSalt.bytes (List.range 16)) 150000 32)) false =
      Except.ok (decide (testKdf (jsTrim " secret ") (KdfSalt.bytes (List.range 16)) 150000 32 =
        testKdf " secret " (KdfSalt.bytes (List.range 16)) 150000 32)) :=
  (untrimmed_password_to_kdf testKdf testKdf_length testKdf_lt (List.range 16) " secret "
    (by decide) (by decide)).2 _
    (hashPassword_default_eq testKdf (List.range 16) " secret " (by decide))

/-! ### C4 -/

/-- C4: a hash produced by the legacy path verifies as `true` with
`legacy := true`; verifying the same stored string with `legacy := false`
decodes the hex fields as base64 into different bytes and, as long as the
re-derived key does not coincide with those bytes (true of any real KDF with
overwhelming probability), returns `false` rather than succeeding. -/
theorem legacy_interop (kdf : Kdf)
    (hlen : ∀ pw s it kl, (kdf pw s it kl).length = kl)
    (hbytes : ∀ pw s it kl, ∀ b ∈ kdf pw s it kl, b < 256)
    (salt : List Nat) (p : String) (hsalt : ∀ b ∈ salt, b < 256)
    (hp : 6 ≤ (jsTrim p).length)
    (hne : kdf p (KdfSalt.bytes (base64Decode (bytesToHex salt))) 100000
        ((base64Decode (bytesToHex (kdf p (KdfSalt.str (bytesToHex salt)) 100000 64))).length)
      ≠ base64Decode (bytesToHex (kdf p (KdfSalt.str (bytesToHex salt)) 100000 64)))
    (hstr : String) (hh : hashPassword kdf salt p true = Except.ok hstr) :
    verifyPassword kdf p hstr true = Except.ok true ∧
      verifyPassword kdf p hstr false = Except.ok false := by
  have he := hashPassword_legacy_eq kdf salt p hp
  rw [hh] at he
  obtain rfl := Except.ok.inj he
  have hsplit := jsSplit_four "pbkdf2_sha256" "100000" (bytesToHex salt)
    (bytesToHex (kdf p (KdfSalt.str (bytesToHex salt)) 100000 64)) (by decide) (by decide)
    (dollar_not_mem_bytesToHex _) (dollar_not_mem_bytesToHex _)
  constructor
  · rw [verifyPassword_parsed_legacy kdf hlen p _ "100000" (bytesToHex salt)
      (bytesToHex (kdf p (KdfSalt.str (bytesToHex salt)) 100000 64)) [] 100000 hsplit
      (by decide) (by norm_num)]
    rw [hexDecode_bytesToHex salt hsalt,
      hexDecode_bytesToHex _ (hbytes p (KdfSalt.str (bytesToHex salt)) 100000 64),
      hlen p (KdfSalt.str (bytesToHex salt)) 100000 64]
    simp
  · rw [verifyPassword_parsed_default kdf hlen p _ "100000" (bytesToHex salt)
      (bytesToHex (kdf p (KdfSalt.str (bytesToHex salt)) 100000 64)) [] 100000 hsplit
      (by decide) (by norm_num)]
    rw [show Int.toNat 100000 = 100000 from rfl]
    rw [decide_eq_false hne]

theorem legacy_interop_witness :
    verifyPassword testKdf "sunshine" ("pbkdf2_sha256" ++ "$" ++ "100000" ++ "$" ++
        bytesToHex (List.range 16) ++ "$" ++
        bytesToHex (testKdf "sunshine" (KdfSalt.str (bytesToHex (List.range 16))) 100000 64))
        true = Except.ok true ∧
      verifyPassword testKdf "sunshine" ("pbkdf2_sha256" ++ "$" ++ "100000" ++ "$" ++
        bytesToHex (List.range 16) ++ "$" ++
        bytesToHex (testKdf "sunshine" (KdfSalt.str (bytesToHex (List.range 16))) 100000 64))
        false = Except.ok false :=
  legacy_interop testKdf testKdf_length testKdf_lt (List.range 16) "sunshine"
    (by decide) (by decide) (by decide) _
    (hashPassword_legacy_eq testKdf (List.range 16) "sunshine" (by decide))

/-! ### C8 -/

/-- C8: in both operations the KDF's salt argument is the hex-string
rendering of the salt bytes in legacy mode and the raw bytes otherwise:
hashing embeds a key derived with exactly that salt argument, and verifying
the resulting hash hands the KDF the identical salt argument and compares
the re-derived key against the identical stored key. -/
theorem kdf_salt_transform_consistent (kdf : Kdf)
    (hlen : ∀ pw s it kl, (kdf pw s it kl).length = kl)
    (hbytes : ∀ pw s it kl, ∀ b ∈ kdf pw s it kl, b < 256)
    (salt : List Nat) (p : String) (hsalt : ∀ b ∈ salt, b < 256)
    (hp : 6 ≤ (jsTrim p).length) :
    (hashPassword kdf salt p true =
        Except.ok ("pbkdf2_sha256" ++ "$" ++ "100000" ++ "$" ++ bytesToHex salt ++ "$" ++
          bytesToHex (kdf p (KdfSalt.str (bytesToHex salt)) 100000 64)))
    ∧ (hashPassword kdf salt p false =
        Except.ok ("pbkdf2_sha256" ++ "$" ++ "150000" ++ "$" ++ base64Encode salt ++ "$" ++
          base64Encode (kdf p (KdfSalt.bytes salt) 150000 32)))
    ∧ (∀ hstr, hashPassword kdf salt p true = Except.ok hstr →
        verifyPassword kdf p hstr true =
          timingSafeEqual (kdf p (KdfSalt.str (bytesToHex salt)) 100000 64)
            (kdf p (KdfSalt.str (bytesToHex salt)) 100000 64))
    ∧ (∀ hstr, hashPassword kdf salt p false = Except.ok hstr →
        verifyPassword kdf p hstr false =
          timingSafeEqual (kdf p (KdfSalt.bytes salt) 150000 32)
            (kdf p (KdfSalt.bytes salt) 150000 32)) := by
  refine ⟨hashPassword_legacy_eq kdf salt p hp, hashPassword_default_eq kdf salt p hp,
    ?_, ?_⟩
  · intro hstr hh
    have he := hashPassword_legacy_eq kdf salt p hp
    rw [hh] at he
    obtain rfl := Except.ok.inj he
    have hsplit := jsSplit_four "pbkdf2_sha256" "100000" (bytesToHex salt)
      (bytesToHex (kdf p (KdfSalt.str (bytesToHex salt)) 100000 64)) (by decide) (by decide)
      (dollar_not_mem_bytesToHex _) (dollar_not_mem_bytesToHex _)
    rw [verifyPassword_parsed_legacy kdf hlen p _ "100000" (bytesToHex salt)
      (bytesToHex (kdf p (KdfSalt.str (bytesToHex salt)) 100000 64)) [] 100000 hsplit
      (by decide) (by norm_num)]
    rw [hexDecode_bytesToHex salt hsalt,
      hexDecode_bytesToHex _ (hbytes p (KdfSalt.str (bytesToHex salt)) 100000 64),
      hlen p (KdfSalt.str (bytesToHex salt)) 100000 64]
    unfold timingSafeEqual
    rw [if_pos rfl]
    rfl
  · intro hstr hh
    have he := hashPassword_default_eq kdf salt p hp
    rw [hh] at he
    obtain rfl := Except.ok.inj he
    have hsplit := jsSplit_four "pbkdf2_sha256" "150000" (base64Encode salt)
      (base64Encode (kdf p (KdfSalt.bytes salt) 150000 32)) (by decide) (by decide)
      (dollar_not_mem_base64Encode _) (dollar_not_mem_base64Encode _)
    rw [verifyPassword_parsed_default kdf hlen p _ "150000" (base64Encode salt)
      (base64Encode (kdf p (KdfSalt.bytes salt) 150000 32)) [] 150000 hsplit (by decide)
      (by norm_num)]
    rw [base64Decode_base64Encode salt hsalt,
      base64Decode_base64Encode _ (hbytes p (KdfSalt.bytes salt) 150000 32),
      hlen p (KdfSalt.bytes salt) 150000 32]
    unfold timingSafeEqual
    rw [if_pos rfl]
    rfl

theorem kdf_salt_transform_consistent_witness :
    verifyPassword testKdf "sesame-open" ("pbkdf2_sha256" ++ "$" ++ "100000" ++ "$" ++
        bytesToHex (List.range 16) ++ "$" ++
        bytesToHex (testKdf "sesame-open" (KdfSalt.str (bytesToHex (List.range 16))) 100000 64))
        true =
      timingSafeEqual
        (testKdf "sesame-open" (KdfSalt.str (bytesToHex (List.range 16))) 100000 64)
        (testKdf "sesame-open" (KdfSalt.str (bytesToHex (List.range 16))) 100000 64) :=
  (kdf_salt_transform_consistent testKdf testKdf_length testKdf_lt (List.range 16)
    "sesame-open" (by decide) (by decide)).2.2.1 _
    (hashPassword_legacy_eq testKdf (List.range 16) "sesame-open" (by decide))

/-! ### C1 -/

/-- C1, counterexample to the claimed validation: a stored string that
splits into five fields (wrong field count, with empty salt and key fields)
is not rejected with a `MalformedHashError`; verification proceeds through
the KDF and returns `true`. -/
theorem verify_field_count_counterexample :
    (jsSplit "pbkdf2_sha256$1$$$").length ≠ 4 ∧
      verifyPassword testKdf "password" "pbkdf2_sha256$1$$$" false = Except.ok true := by
  constructor
  · decide
  · rfl

/-- C1, as the code actually behaves: `verifyPassword` fails with a
`MalformedHashError` exactly when the split has fewer than four fields, the
first field differs from `pbkdf2_sha256`, or `parseInt(iterations, 10)` is
`NaN`; and whenever that condition holds, the result does not depend on the
KDF at all (no derivation work).  Extra fields, empty salt and key fields,
and non-positive or prefix-numeric iteration fields pass the validation. -/
theorem verify_malformed_characterization (kdf : Kdf) (p s : String) (legacy : Bool) :
    (isMalformedErr (verifyPassword kdf p s legacy) = true ↔
      ((jsSplit s).length < 4 ∨ (jsSplit s)[0]? ≠ some "pbkdf2_sha256" ∨
        parseIntJS (((jsSplit s)[1]?).getD "") = none))
    ∧ (((jsSplit s).length < 4 ∨ (jsSplit s)[0]? ≠ some "pbkdf2_sha256" ∨
        parseIntJS (((jsSplit s)[1]?).getD "") = none) →
      ∀ kdf2 : Kdf, verifyPassword kdf2 p s legacy = verifyPassword kdf p s legacy) := by
  unfold verifyPassword
  generalize jsSplit s = parts
  rcases parts with _ | ⟨a, _ | ⟨b, _ | ⟨c, _ | ⟨d, rest⟩⟩⟩⟩ <;>
    simp only [List.getElem?_cons_zero, List.getElem?_cons_succ, List.getElem?_nil,
      List.length_cons, List.length_nil, Option.getD_some, Option.getD_none]
  · exact ⟨by simp [isMalformedErr], fun _ kdf2 => trivial⟩
  · exact ⟨⟨fun _ => Or.inl (by omega), fun _ => by split <;> rfl⟩, fun _ kdf2 => trivial⟩
  · exact ⟨⟨fun _ => Or.inl (by omega), fun _ => by split <;> rfl⟩, fun _ kdf2 => trivial⟩
  · exact ⟨⟨fun _ => Or.inl (by omega), fun _ => by split <;> rfl⟩, fun _ kdf2 => trivial⟩
  · constructor
    · by_cases ha : some a = some "pbkdf2_sha256"
      · rw [if_neg (not_not_intro ha)]
        rcases hb : parseIntJS b with _ | n
        · simp [isMalformedErr]
        · constructor
          · intro hcon
            rw [isMalformedErr_derive_stage] at hcon
            exact Bool.noConfusion hcon
          · intro hcond
            rcases hcond with h4 | halg | hit
            · omega
            · exact absurd ha halg
            · exact Option.noConfusion hit
      · rw [if_pos ha]
        exact ⟨fun _ => Or.inr (Or.inl ha), fun _ => rfl⟩
    · intro hcond kdf2
      by_cases ha : some a = some "pbkdf2_sha256"
      · rw [if_neg (not_not_intro ha), if_neg (not_not_intro ha)]
        rcases hb : parseIntJS b with _ | n
        · rfl
        · exfalso
          rcases hcond with h4 | halg | hit
          · omega
          · exact absurd ha halg
          · rw [hb] at hit
            exact Option.noConfusion hit
      · rw [if_pos ha, if_pos ha]

theorem verify_malformed_characterization_witness :
    isMalformedErr (verifyPassword testKdf "user" "no-dollar-fields" true) = true ∧
      verifyPassword zeroKdf "user" "no-dollar-fields" true =
        verifyPassword testKdf "user" "no-dollar-fields" true :=
  ⟨(verify_malformed_characterization testKdf "user" "no-dollar-fields" true).1.mpr
      (Or.inl (by decide)),
    (verify_malformed_characterization testKdf "user" "no-dollar-fields" true).2
      (Or.inl (by decide)) zeroKdf⟩

/-! ### C5 -/

theorem one_le_splitChars_length (cs : List Char) : 1 ≤ (splitChars cs).length := by
  cases h : splitChars cs with
  | nil => exact absurd h (splitChars_ne_nil cs)
  | cons g gs => simp

theorem two_le_splitChars_append : ∀ a b : List Char, 2 ≤ (splitChars (a ++ '$' :: b)).length
  | [], b => by
    have h1 := one_le_splitChars_length b
    have e : splitChars ('$' :: b) = [] :: splitChars b := by simp [splitChars]
    rw [List.nil_append, e]
    simp only [List.length_cons]
    omega
  | c :: a, b => by
    by_cases hc : c = '$'
    · subst hc
      have h1 := one_le_splitChars_length (a ++ '$' :: b)
      have e : splitChars ('$' :: (a ++ '$' :: b)) = [] :: splitChars (a ++ '$' :: b) := by
        simp [splitChars]
      rw [List.cons_append, e]
      simp only [List.length_cons]
      omega
    · have ih := two_le_splitChars_append a b
      rw [List.cons_append]
      cases h : splitChars (a ++ '$' :: b) with
      | nil => exact absurd h (splitChars_ne_nil _)
      | cons g gs =>
        have e : splitChars (c :: (a ++ '$' :: b)) = (c :: g) :: gs := by
          simp [splitChars, hc, h]
        rw [e]
        rw [h] at ih
        simpa using ih

/-- C5, counterexample to the claimed decode failure: `zz` is not
well-formed hex, yet verifying `pbkdf2_sha256$1$zz$zz` in legacy (hex) mode
does not fail with a `MalformedHashError`: Node's lenient decoder truncates
both fields to empty buffers, the KDF runs with key length zero, and the
verification even returns `true`. -/
theorem verify_bad_hex_counterexample :
    isHexString "zz" = false ∧
      verifyPassword testKdf "password9" "pbkdf2_sha256$1$zz$zz" true = Except.ok true := by
  constructor
  · rfl
  · rfl

/-- C5, as the code actually behaves: once the algorithm and iterations
fields pass validation, no decoding of the salt and key fields can raise a
`MalformedHashError` — `Buffer.from` decodes any field content leniently and
verification proceeds to derivation. -/
theorem verify_decode_never_malformed (kdf : Kdf) (p itS s3 s4 : String) (legacy : Bool)
    (hit : '$' ∉ itS.data) (hparse : parseIntJS itS ≠ none) :
    isMalformedErr (verifyPassword kdf p
      ("pbkdf2_sha256" ++ "$" ++ itS ++ "$" ++ s3 ++ "$" ++ s4) legacy) = false := by
  have hdata : ("pbkdf2_sha256" ++ "$" ++ itS ++ "$" ++ s3 ++ "$" ++ s4).data
      = "pbkdf2_sha256".data ++ '$' :: (itS.data ++ '$' :: (s3.data ++ '$' :: s4.data)) := by
    simp [String.data_append, data_dollar, List.append_assoc]
  rcases h3 : splitChars (s3.data ++ '$' :: s4.data) with _ | ⟨g1, _ | ⟨g2, gs⟩⟩
  · exact absurd h3 (splitChars_ne_nil _)
  · have h2 := two_le_splitChars_append s3.data s4.data
    rw [h3] at h2
    simp at h2
  · have hj : jsSplit ("pbkdf2_sha256" ++ "$" ++ itS ++ "$" ++ s3 ++ "$" ++ s4)
        = "pbkdf2_sha256" :: itS :: String.mk g1 :: String.mk g2 :: gs.map String.mk := by
      unfold jsSplit
      rw [hdata, splitChars_append_dollar _ _ (by decide),
        splitChars_append_dollar _ _ hit, h3]
      rfl
    unfold verifyPassword
    rw [hj]
    simp only [List.getElem?_cons_zero, List.getElem?_cons_succ]
    rw [if_neg (not_not_intro rfl)]
    rcases hn : parseIntJS itS with _ | n
    · exact absurd hn hparse
    · exact isMalformedErr_derive_stage kdf p _ n _

theorem verify_decode_never_malformed_witness :
    isMalformedErr (verifyPassword testKdf "pw1234"
      ("pbkdf2_sha256" ++ "$" ++ "1" ++ "$" ++ "zz" ++ "$" ++ "!!") true) = false :=
  verify_decode_never_malformed testKdf "pw1234" "1" "zz" "!!" true (by decide) (by decide)
